import Mathlib

/-!
Shallow embedding of the poolsched GitLab scheduling module
(`src/poolsched/models/targets/gitlab.py`): credentials (`GLToken`),
jobs, raw-collection intentions (`IGLRaw`) and enrichment intentions
(`IGLEnrich`), together with the operations the module defines on them
(`is_ready`, `next_job`, `running_job`, `create_job`, `create_previous`,
`run`, `selectable_intentions`).

Modelling conventions:
* the database is a `State` record holding the rows of each table;
* `now()` is the explicit field `State.nowTime`, measured in minutes
  (so `timedelta(minutes=n)` is the integer `n`);
* Django querysets without an `order_by` enumerate rows in list order,
  so `.first()` is `List.find?` / `List.head?` on the row list;
* the process-wide logger is the `State.handlers` list; `addHandler`
  appends and `removeHandler` removes the handler added last (each call
  of `run` builds a fresh handler object);
* `transaction.atomic` with `select_for_update` serializes the locked
  sections, so a set of concurrent `next_job` calls is modelled as a
  sequence of atomic `next_job` steps (`next_job_seq`).
-/

/-- Modelled from the spec: the `Job` model class lives in
`poolsched/models/jobs.py`, which is not under `src/`; the spec's
persisted layout gives it an identifier and an optional assigned worker
("Job table (id, worker_id?)"). -/
structure Job where
  id : Nat
  worker : Option Nat
  deriving DecidableEq, Repr

/-- GitLab token (`GLToken`): owner, rate-limit `reset` time and the
many-to-many set of jobs currently using it (stored as job ids). -/
structure GLToken where
  id : Nat
  user : Nat
  reset : Int
  jobs : List Nat
  deriving DecidableEq, Repr

/-- Raw-collection intention (`IGLRaw`): a repo to analyze plus the
fields inherited from the `Intention` base class (user, optional job,
prerequisite `previous` set), which lives outside `src/` and is
modelled from the spec's persisted layout
("Intention tables per kind (id, user_id, resource_id, job_id?, previous_ids[], created)"). -/
structure IGLRaw where
  id : Nat
  user : Nat
  repo : Nat
  job : Option Nat
  previous : List Nat
  deriving DecidableEq, Repr

/-- Enrichment intention (`IGLEnrich`), same inherited fields as `IGLRaw`. -/
structure IGLEnrich where
  id : Nat
  user : Nat
  repo : Nat
  job : Option Nat
  previous : List Nat
  deriving DecidableEq, Repr

/-- The shared database state: one list of rows per table, the logger's
handler list, a fresh-id counter for newly created rows, and the current
time (minutes). -/
structure State where
  tokens : List GLToken
  jobs : List Job
  raws : List IGLRaw
  enrichs : List IGLEnrich
  handlers : List Nat
  nextId : Nat
  nowTime : Int
  deriving DecidableEq, Repr

/-- `GLToken.MAX_JOBS_TOKEN = 3`: maximum number of jobs using a token
concurrently. -/
def GLToken.MAX_JOBS_TOKEN : Nat := 3

/-- `GLToken.is_ready`: `return now() > self.reset`. -/
def GLToken.is_ready (t : GLToken) (nowTime : Int) : Bool :=
  nowTime > t.reset

/-- `token.jobs.add(job)`: Django m2m `add` is idempotent. -/
def GLToken.addJob (t : GLToken) (jid : Nat) : GLToken :=
  if t.jobs.contains jid then t else { t with jobs := t.jobs ++ [jid] }

/-- Look a job row up by id (first row with that id). -/
def State.findJob (s : State) (jid : Nat) : Option Job :=
  s.jobs.find? (fun j => j.id == jid)

/-- The join `job__gltoken__reset__lt=now()`: some token whose `jobs`
set contains the job has `reset < now()`. -/
def State.tokenReady (s : State) (jid : Nat) : Bool :=
  s.tokens.any (fun t => t.jobs.contains jid && t.reset < s.nowTime)

/-- `job.worker = worker; job.save()`: persist the worker assignment on
the job row. -/
def State.setWorker (s : State) (jid : Nat) (w : Nat) : State :=
  { s with jobs := s.jobs.map (fun j => if j.id == jid then { j with worker := some w } else j) }

/-- The filter of `IGLRaw.next_job`:
`.exclude(job=None).filter(job__worker=None).filter(job__gltoken__reset__lt=now())`. -/
def IGLRaw.eligible (s : State) (i : IGLRaw) : Bool :=
  match i.job with
  | none => false
  | some jid =>
    match s.findJob jid with
    | none => false
    | some j => j.worker == none && s.tokenReady jid

/-- `IGLRaw.next_job(worker)`: inside one atomic transaction with row
locks, take the first intention with a job, whose job has no worker and
has a token past its reset; assign the worker to that job and return it. -/
def IGLRaw.next_job (s : State) (worker : Nat) : Option Job × State :=
  match s.raws.find? (fun i => IGLRaw.eligible s i) with
  | none => (none, s)
  | some i =>
    match i.job with
    | none => (none, s)
    | some jid => (some { id := jid, worker := some worker }, s.setWorker jid worker)

/-- The filter of `IGLEnrich.next_job`:
`.exclude(job=None).filter(job__worker=None)` (no token condition). -/
def IGLEnrich.eligible (s : State) (i : IGLEnrich) : Bool :=
  match i.job with
  | none => false
  | some jid =>
    match s.findJob jid with
    | none => false
    | some j => j.worker == none

/-- `IGLEnrich.next_job(worker)`: same as the raw variant without the
token-readiness condition. -/
def IGLEnrich.next_job (s : State) (worker : Nat) : Option Job × State :=
  match s.enrichs.find? (fun i => IGLEnrich.eligible s i) with
  | none => (none, s)
  | some i =>
    match i.job with
    | none => (none, s)
    | some jid => (some { id := jid, worker := some worker }, s.setWorker jid worker)

/-- `IGLRaw.create_previous`: no previous intention needed, returns `[]`. -/
def IGLRaw.create_previous (s : State) (_self : IGLRaw) : List Nat × State :=
  ([], s)

/-- `IGLRaw.running_job`: `candidates = self.repo.iglraw_set.filter(job__isnull=False)`;
take `candidates[0].job`, assign it to `self` and save; then add the job
to every token of `self.user`; return the job id (`None` if no candidate). -/
def IGLRaw.running_job (s : State) (self : IGLRaw) : Option Nat × State :=
  match (s.raws.filter (fun i => i.repo == self.repo && i.job.isSome)).head? with
  | none => (none, s)
  | some c =>
    match c.job with
    | none => (none, s)
    | some jid =>
      (some jid,
       { s with
         raws := s.raws.map (fun i => if i.id == self.id then { i with job := some jid } else i),
         tokens := s.tokens.map (fun t => if t.user == self.user then t.addJob jid else t) })

/-- `IGLEnrich.running_job`: same candidate search on `iglenrich_set`,
assign and save, no token handling. -/
def IGLEnrich.running_job (s : State) (self : IGLEnrich) : Option Nat × State :=
  match (s.enrichs.filter (fun i => i.repo == self.repo && i.job.isSome)).head? with
  | none => (none, s)
  | some c =>
    match c.job with
    | none => (none, s)
    | some jid =>
      (some jid,
       { s with
         enrichs := s.enrichs.map (fun i => if i.id == self.id then { i with job := some jid } else i) })

/-- The loop body of `IGLRaw.create_job`: walk the user's tokens in row
order; for each token with fewer than `MAX_JOBS_TOKEN` jobs, create the
job on first need (`if self.job is None`) and add it to the token.
Returns the updated token rows, the final `self.job`, and whether a new
job row was created. -/
def IGLRaw.create_job_loop (user : Nat) (newId : Nat) :
    List GLToken → Option Nat → Bool → List GLToken × Option Nat × Bool
  | [], selfJob, created => ([], selfJob, created)
  | t :: ts, selfJob, created =>
    if t.user == user && t.jobs.length < GLToken.MAX_JOBS_TOKEN then
      match selfJob with
      | none =>
        let r := IGLRaw.create_job_loop user newId ts (some newId) true
        (t.addJob newId :: r.1, r.2)
      | some jid =>
        let r := IGLRaw.create_job_loop user newId ts (some jid) created
        (t.addJob jid :: r.1, r.2)
    else
      let r := IGLRaw.create_job_loop user newId ts selfJob created
      (t :: r.1, r.2)

/-- `IGLRaw.create_job(worker)`: inside one atomic transaction, walk the
user's tokens; on the first token with capacity create
`Job.objects.create(worker=worker)` if `self.job` is still `None`, and
add `self.job` to every token with capacity. Returns the created job
(`None` if none was created). -/
def IGLRaw.create_job (s : State) (self : IGLRaw) (worker : Nat) : Option Job × State :=
  let r := IGLRaw.create_job_loop self.user s.nextId s.tokens self.job false
  let newJob : Job := { id := s.nextId, worker := some worker }
  (if r.2.2 then some newJob else none,
   { s with
     tokens := r.1,
     jobs := if r.2.2 then s.jobs ++ [newJob] else s.jobs,
     raws := s.raws.map (fun i => if i.id == self.id then { i with job := r.2.1 } else i),
     nextId := if r.2.2 then s.nextId + 1 else s.nextId })

/-- `IGLEnrich.create_job(worker)`: if `self.job` is `None`, create
`Job.objects.create(worker=worker)` and assign it; otherwise return `None`. -/
def IGLEnrich.create_job (s : State) (self : IGLEnrich) (worker : Nat) : Option Job × State :=
  match self.job with
  | some _ => (none, s)
  | none =>
    let newJob : Job := { id := s.nextId, worker := some worker }
    (some newJob,
     { s with
       jobs := s.jobs ++ [newJob],
       enrichs := s.enrichs.map (fun i => if i.id == self.id then { i with job := some s.nextId } else i),
       nextId := s.nextId + 1 })

/-- `self.previous.add(raw_intention)`: m2m `add`, idempotent. -/
def IGLEnrich.addPrevious (e : IGLEnrich) (rid : Nat) : IGLEnrich :=
  if e.previous.contains rid then e else { e with previous := e.previous ++ [rid] }

/-- `IGLEnrich.create_previous`: `IGLRaw.objects.get_or_create(repo=self.repo,
user=self.user)`, add the raw intention to `self.previous`, return it. -/
def IGLEnrich.create_previous (s : State) (self : IGLEnrich) : List Nat × State :=
  match s.raws.find? (fun i => i.repo == self.repo && i.user == self.user) with
  | some i =>
    ([i.id],
     { s with enrichs := s.enrichs.map (fun e => if e.id == self.id then e.addPrevious i.id else e) })
  | none =>
    ([s.nextId],
     { s with
       raws := s.raws ++ [{ id := s.nextId, user := self.user, repo := self.repo,
                            job := none, previous := [] }],
       enrichs := s.enrichs.map (fun e => if e.id == self.id then e.addPrevious s.nextId else e),
       nextId := s.nextId + 1 })

/-- `IRawManager.selectable_intentions(user, max)`: if the user has a
token below the cap and past its reset, return up to `max` intentions
with `previous=None`, `user=user`, `job=None`; otherwise `[]`. -/
def IRawManager.selectable_intentions (s : State) (user : Nat) (max : Nat) : List IGLRaw :=
  let token_available := s.tokens.any (fun t =>
    t.user == user && t.jobs.length < GLToken.MAX_JOBS_TOKEN && t.reset < s.nowTime)
  if token_available then
    (s.raws.filter (fun i => i.previous.isEmpty && i.user == user && i.job == none)).take max
  else []

/-- `IEnrichedManager.selectable_intentions(user, max)`: up to `max`
intentions with `previous=None`, `user=user`, `job=None` (no token gate). -/
def IEnrichedManager.selectable_intentions (s : State) (user : Nat) (max : Nat) : List IGLEnrich :=
  (s.enrichs.filter (fun i => i.previous.isEmpty && i.user == user && i.job == none)).take max

/-- Outcome of the external `GitLabRaw` runner as observed by
`IGLRaw.run`: an integer output, or an exception raised inside the `try`
block (caught and converted to `output = 1`). -/
inductive RunnerResult where
  | output (n : Int)
  | raised
  deriving DecidableEq, Repr

/-- Result of `IGLRaw.run`: `return True`, `return False` (not yet
done), or `raise Job.StopException`. -/
inductive RunOutcome where
  | done
  | notYetDone
  | stopException
  deriving DecidableEq, Repr

/-- The value the `output` variable holds after the `try/except` block:
the runner's return value, or `1` if the runner raised. -/
def effectiveOutput : RunnerResult → Int
  | .output n => n
  | .raised => 1

/-- `global_logger.removeHandler(fh)`: each call of `run` builds a fresh
handler object, so the removed handler is the one added last; remove the
last occurrence. -/
def removeHandler (hs : List Nat) (fh : Nat) : List Nat :=
  (hs.reverse.erase fh).reverse

/-- `token = job.gltokens.filter(reset__lt=now()).first()`. -/
def State.readyToken (s : State) (jid : Nat) : Option GLToken :=
  s.tokens.find? (fun t => t.jobs.contains jid && t.reset < s.nowTime)

/-- `IGLRaw.run(job)`: pick a ready token of the job (raise
`Job.StopException` if none); attach the per-job log handler, run the
runner (exceptions become `output = 1`), remove the handler in the
`finally` block; then `output == 1` raises `Job.StopException`, any
other truthy output advances the token's reset by `output` minutes and
returns `False`, and falsy output returns `True`. -/
def IGLRaw.run (s : State) (job : Job) (runner : RunnerResult) : RunOutcome × State :=
  match s.readyToken job.id with
  | none => (.stopException, s)
  | some token =>
    let output := effectiveOutput runner
    let s1 := { s with handlers := removeHandler (s.handlers ++ [job.id]) job.id }
    if output == 1 then (.stopException, s1)
    else if output != 0 then
      (.notYetDone,
       { s1 with tokens := s1.tokens.map (fun t =>
           if t.id == token.id then { t with reset := s1.nowTime + output } else t) })
    else (.done, s1)

/-- Outcome of the external `GitLabEnrich` runner: a string output, or
an exception (there is no `try/except` around it in `IGLEnrich.run`). -/
inductive EnrichRunnerResult where
  | output (msg : String)
  | raised
  deriving DecidableEq, Repr

/-- Result of `IGLEnrich.run`: `return True`, `raise Job.StopException`,
or an exception propagating out of `run` unhandled. -/
inductive EnrichRunOutcome where
  | done
  | stopException
  | raised
  deriving DecidableEq, Repr

/-- `IGLEnrich.run(job)`: attach the per-job log handler, run the
runner, remove the handler, then a truthy (non-empty) output raises
`Job.StopException` and otherwise `True` is returned. There is no
`try/finally`: if the runner raises, the handler is not removed. -/
def IGLEnrich.run (s : State) (job : Job) (runner : EnrichRunnerResult) : EnrichRunOutcome × State :=
  let s1 := { s with handlers := s.handlers ++ [job.id] }
  match runner with
  | .raised => (.raised, s1)
  | .output msg =>
    let s2 := { s1 with handlers := removeHandler s1.handlers job.id }
    if msg != "" then (.stopException, s2) else (.done, s2)

/-- A sequence of `IGLRaw.next_job` calls by the given workers, executed
serially (the effect of `transaction.atomic` + `select_for_update`):
returns each call's result and the final state. -/
def IGLRaw.next_job_seq (s : State) : List Nat → List (Option Job) × State
  | [] => ([], s)
  | w :: ws =>
    let r := IGLRaw.next_job s w
    let rest := IGLRaw.next_job_seq r.2 ws
    (r.1 :: rest.1, rest.2)

/-- A sequence of `IGLEnrich.next_job` calls, executed serially. -/
def IGLEnrich.next_job_seq (s : State) : List Nat → List (Option Job) × State
  | [] => ([], s)
  | w :: ws =>
    let r := IGLEnrich.next_job s w
    let rest := IGLEnrich.next_job_seq r.2 ws
    (r.1 :: rest.1, rest.2)

/-- How many results in a list of `next_job` results claim the job `jid`. -/
def claimCount (jid : Nat) (rs : List (Option Job)) : Nat :=
  (rs.filter (fun r => match r with | some j => j.id == jid | none => false)).length

/-- The job `jid` can no longer be claimed in `s`: its row (if any) has
a worker assigned. -/
def State.claimedOrAbsent (s : State) (jid : Nat) : Bool :=
  match s.findJob jid with
  | some j => j.worker.isSome
  | none => true

/-- Every token is within the concurrency cap. -/
def State.tokensWithinCap (s : State) : Prop :=
  ∀ t ∈ s.tokens, t.jobs.length ≤ GLToken.MAX_JOBS_TOKEN

/-- No job is unclaimed in `s2` unless it was already unclaimed in `s1`:
no operation moves a job from claimed back to unclaimed, and newly
created rows are not unclaimed. -/
def State.noNewUnclaimed (s1 s2 : State) : Prop :=
  ∀ j2 ∈ s2.jobs, j2.worker = none → ∃ j1 ∈ s1.jobs, j1.id = j2.id ∧ j1.worker = none

/-! Concrete fixture states used by counterexamples and witnesses. -/

/-- A raw intention with no job yet, user 1, repo 5. -/
def selfC1 : IGLRaw := { id := 10, user := 1, repo := 5, job := none, previous := [] }

/-- State where user 1's token already holds `MAX_JOBS_TOKEN` jobs and
another intention on repo 5 has job 4. -/
def sC1 : State :=
  { tokens := [{ id := 1, user := 1, reset := 0, jobs := [1, 2, 3] }],
    jobs := [{ id := 1, worker := some 5 }, { id := 2, worker := some 5 },
             { id := 3, worker := some 5 }, { id := 4, worker := some 6 }],
    raws := [selfC1, { id := 11, user := 2, repo := 5, job := some 4, previous := [] }],
    enrichs := [], handlers := [], nextId := 100, nowTime := 10 }

/-- A claimed job used by the `run` fixtures. -/
def jobC2 : Job := { id := 1, worker := some 9 }

/-- A ready token holding `jobC2`. -/
def tokC2 : GLToken := { id := 1, user := 1, reset := 0, jobs := [1] }

/-- State with one ready token holding job 1. -/
def sC2 : State :=
  { tokens := [tokC2], jobs := [jobC2], raws := [], enrichs := [],
    handlers := [], nextId := 50, nowTime := 10 }

/-- A token past its reset holding job 1, on an intention with a
waiting job: `next_job` fixture. -/
def sC3 : State :=
  { tokens := [{ id := 1, user := 1, reset := 0, jobs := [1] }],
    jobs := [{ id := 1, worker := none }],
    raws := [{ id := 10, user := 1, repo := 1, job := some 1, previous := [] }],
    enrichs := [{ id := 20, user := 1, repo := 1, job := some 1, previous := [] }],
    handlers := [], nextId := 30, nowTime := 10 }

/-- A raw intention with a non-empty `previous` set and no job. -/
def pendC4 : IGLRaw := { id := 10, user := 1, repo := 5, job := none, previous := [77] }

/-- State where `pendC4` is pending while another intention on the same
repo has unclaimed job 4. -/
def s0C4 : State :=
  { tokens := [{ id := 1, user := 1, reset := 0, jobs := [] }],
    jobs := [{ id := 4, worker := none }],
    raws := [pendC4, { id := 11, user := 2, repo := 5, job := some 4, previous := [] }],
    enrichs := [], handlers := [], nextId := 90, nowTime := 10 }

/-- The state after `pendC4` shares job 4 through `running_job`. -/
def s1C4 : State := (IGLRaw.running_job s0C4 pendC4).2

/-- State used by the amended-C4 witness: a ready token and one
selectable raw intention. -/
def sC4w : State :=
  { tokens := [{ id := 1, user := 1, reset := 0, jobs := [] }],
    jobs := [],
    raws := [{ id := 10, user := 1, repo := 5, job := none, previous := [] }],
    enrichs := [{ id := 20, user := 1, repo := 5, job := none, previous := [] }],
    handlers := [], nextId := 90, nowTime := 10 }

/-- A raw intention of user 1 on repo 5, no job. -/
def selfC5 : IGLRaw := { id := 10, user := 1, repo := 5, job := none, previous := [] }

/-- State where user 1's only token is NOT past its reset
(`reset = 1000 > now = 0`) and another intention on repo 5 has job 4. -/
def sC5 : State :=
  { tokens := [{ id := 1, user := 1, reset := 1000, jobs := [] }],
    jobs := [{ id := 4, worker := some 2 }],
    raws := [selfC5, { id := 11, user := 3, repo := 5, job := some 4, previous := [] }],
    enrichs := [], handlers := [], nextId := 50, nowTime := 0 }

/-- A raw intention with no job, used by the `create_job` fixtures. -/
def selfC6 : IGLRaw := { id := 10, user := 1, repo := 5, job := none, previous := [] }

/-- State where user 1 has an empty token, so `create_job` creates a job. -/
def sC6 : State :=
  { tokens := [{ id := 1, user := 1, reset := 0, jobs := [] }],
    jobs := [], raws := [selfC6], enrichs := [], handlers := [], nextId := 100, nowTime := 10 }

/-- State used by the amended-C6 witness: job 1 is claimable through the
raw intention, job 2 is unclaimed and untouched. -/
def sC6w : State :=
  { tokens := [{ id := 1, user := 1, reset := 0, jobs := [1] }],
    jobs := [{ id := 1, worker := none }, { id := 2, worker := none }],
    raws := [{ id := 10, user := 1, repo := 1, job := some 1, previous := [] }],
    enrichs := [], handlers := [], nextId := 30, nowTime := 10 }

/-- An enrichment intention with no previous intentions yet. -/
def selfC8 : IGLEnrich := { id := 20, user := 1, repo := 5, job := none, previous := [] }

/-- State with no raw intentions, so `create_previous` must create one. -/
def sC8 : State :=
  { tokens := [], jobs := [], raws := [], enrichs := [selfC8],
    handlers := [], nextId := 50, nowTime := 0 }

/-- The state after the first `create_previous` call on `selfC8`. -/
def sC8after : State := (IGLEnrich.create_previous sC8 selfC8).2

/-- A claimed job used by the logger fixtures. -/
def jobC9 : Job := { id := 1, worker := some 2 }

/-- The empty state (no handlers attached). -/
def sC9 : State :=
  { tokens := [], jobs := [], raws := [], enrichs := [], handlers := [], nextId := 0, nowTime := 0 }

/-- The first (and only) eligible raw intention of `sC10`. -/
def iC10 : IGLRaw := { id := 10, user := 1, repo := 1, job := some 1, previous := [] }

/-- The first (and only) eligible enrichment intention of `sC10`. -/
def iC10e : IGLEnrich := { id := 20, user := 1, repo := 1, job := some 1, previous := [] }

/-- State with a single queued job (job 1) reachable from one raw and
one enrichment intention, with a ready token. -/
def sC10 : State :=
  { tokens := [{ id := 1, user := 1, reset := 0, jobs := [1] }],
    jobs := [{ id := 1, worker := none }],
    raws := [iC10], enrichs := [iC10e], handlers := [], nextId := 30, nowTime := 10 }

/-! Helper lemmas shared by the claim theorems. -/

theorem removeHandler_append (hs : List Nat) (x : Nat) :
    removeHandler (hs ++ [x]) x = hs := by
  simp [removeHandler]

theorem GLToken.addJob_length (t : GLToken) (jid : Nat) :
    (t.addJob jid).jobs.length ≤ t.jobs.length + 1 := by
  unfold GLToken.addJob
  split
  · exact Nat.le_succ _
  · simp

theorem setWorker_preserves_id (jid w : Nat) (j : Job) :
    ((if j.id == jid then { j with worker := some w } else j) : Job).id = j.id := by
  split <;> rfl

theorem findJob_setWorker (s : State) (jid w k : Nat) :
    (s.setWorker jid w).findJob k =
      (s.findJob k).map (fun j => if j.id == jid then { j with worker := some w } else j) := by
  unfold State.setWorker State.findJob
  rw [List.find?_map]
  have hpf : ((fun j : Job => j.id == k) ∘
      (fun j : Job => if j.id == jid then { j with worker := some w } else j)) =
      (fun j : Job => j.id == k) := by
    funext j
    simp only [Function.comp]
    rw [setWorker_preserves_id]
  rw [hpf]

/-! Claim C7. -/

/-- Claim C7 (counterexample): at `now = reset` the code's `is_ready`
(`now() > self.reset`) is false, while the claim's "current time ≥ reset"
holds, so the claimed equivalence fails at reset 0, now 0. -/
theorem C7_counterexample :
    ¬ (GLToken.is_ready { id := 0, user := 0, reset := 0, jobs := [] } 0 = true ↔
       (0 : Int) ≥ ({ id := 0, user := 0, reset := 0, jobs := [] } : GLToken).reset) := by
  decide

/-- Claim C7 (amended): `GLToken.is_ready` is true iff the current time
is strictly greater than the credential's `reset` timestamp. -/
theorem C7_is_ready_iff (t : GLToken) (nowTime : Int) :
    GLToken.is_ready t nowTime = true ↔ nowTime > t.reset := by
  simp [GLToken.is_ready]

/-! Claim C9. -/

/-- Claim C9 (counterexample): when the `GitLabEnrich` runner raises,
`IGLEnrich.run` has no `try/finally`, so the per-job handler stays on
the global logger: starting from no handlers, the handler list after
`run` is `[1]`, not `[]`. -/
theorem C9_counterexample :
    sC9.handlers = [] ∧
    (IGLEnrich.run sC9 jobC9 EnrichRunnerResult.raised).2.handlers = [jobC9.id] := by
  decide

/-- Claim C9 (amended): `IGLRaw.run` removes the per-job handler on
every exit path (the handler list is unchanged after `run`), and
`IGLEnrich.run` removes it whenever the runner returns an output
(success or hard failure) — but when the runner raises, `IGLEnrich.run`
propagates the exception with the handler still attached. -/
theorem C9_handler_discipline :
    (∀ s job runner, ((IGLRaw.run s job runner).2).handlers = s.handlers) ∧
    (∀ s job msg, ((IGLEnrich.run s job (EnrichRunnerResult.output msg)).2).handlers = s.handlers) ∧
    (∀ s job, ((IGLEnrich.run s job EnrichRunnerResult.raised).2).handlers =
      s.handlers ++ [job.id]) := by
  refine ⟨fun s job runner => ?_, fun s job msg => ?_, fun s job => ?_⟩
  · unfold IGLRaw.run
    cases h : s.readyToken job.id with
    | none => rfl
    | some token =>
      simp only [removeHandler_append]
      split
      · rfl
      · split <;> rfl
  · unfold IGLEnrich.run
    simp only [removeHandler_append]
    split <;> rfl
  · rfl

/-! Claim C2. -/

/-- Claim C2 (counterexample): the runner output `1` is a positive
integer, but `IGLRaw.run` raises `Job.StopException` on it instead of
treating it as a one-minute soft failure. -/
theorem C2_counterexample :
    (0 : Int) < 1 ∧
    (IGLRaw.run sC2 jobC2 (RunnerResult.output 1)).1 = RunOutcome.stopException := by
  decide

/-- Claim C2 (amended): with a ready token on the job, `IGLRaw.run`
interprets the runner's output as: falsy (`0`) means success (`True`);
output `1` — and a runner exception, which is converted to output `1` —
means hard failure (`Job.StopException`); any other non-zero output `N`
(including `N > 1` and negative `N`) means soft failure: the used
token's reset is advanced to `now + N` minutes, the state is otherwise
unchanged (in particular the intention keeps its job), and `run` reports
not-yet-done. Without a ready token, `run` raises `Job.StopException`. -/
theorem C2_run_output (s : State) (job : Job) (runner : RunnerResult) :
    (s.readyToken job.id = none →
      IGLRaw.run s job runner = (RunOutcome.stopException, s)) ∧
    (∀ token, s.readyToken job.id = some token →
      (effectiveOutput runner = 1 →
        IGLRaw.run s job runner = (RunOutcome.stopException, s)) ∧
      (effectiveOutput runner = 0 →
        IGLRaw.run s job runner = (RunOutcome.done, s)) ∧
      (effectiveOutput runner ≠ 0 → effectiveOutput runner ≠ 1 →
        IGLRaw.run s job runner =
          (RunOutcome.notYetDone,
           { s with tokens := s.tokens.map (fun t =>
               if t.id == token.id then { t with reset := s.nowTime + effectiveOutput runner }
               else t) }))) := by
  constructor
  · intro h
    unfold IGLRaw.run
    rw [h]
  · intro token h
    refine ⟨fun h1 => ?_, fun h0 => ?_, fun h0 h1 => ?_⟩
    · unfold IGLRaw.run
      rw [h]
      simp only [removeHandler_append]
      rw [if_pos (by simp [h1])]
    · unfold IGLRaw.run
      rw [h]
      simp only [removeHandler_append]
      rw [if_neg (by simp [h0]), if_neg (by simp [h0])]
    · unfold IGLRaw.run
      rw [h]
      simp only [removeHandler_append]
      rw [if_neg (by simp [h1]), if_pos (by simp [h0])]

/-- Claim C2 (witness): on the fixture state, runner output `30` yields
not-yet-done with the token's reset advanced to `10 + 30`. -/
theorem C2_witness :
    IGLRaw.run sC2 jobC2 (RunnerResult.output 30) =
      (RunOutcome.notYetDone,
       { sC2 with tokens := sC2.tokens.map (fun t =>
           if t.id == tokC2.id then { t with reset := sC2.nowTime + 30 } else t) }) := by
  have h := (C2_run_output sC2 jobC2 (RunnerResult.output 30)).2 tokC2 (by decide)
  exact h.2.2 (by decide) (by decide)

theorem mem_of_head?_eq_some {α : Type} {l : List α} {a : α} (h : l.head? = some a) : a ∈ l :=
  List.mem_of_mem_head? (by simp [h])

theorem tokenReady_exists (s : State) (jid : Nat) (h : s.tokenReady jid = true) :
    ∃ t ∈ s.tokens, t.jobs.contains jid = true ∧ t.reset < s.nowTime := by
  unfold State.tokenReady at h
  obtain ⟨t, ht, hp⟩ := List.any_eq_true.mp h
  rw [Bool.and_eq_true] at hp
  exact ⟨t, ht, hp.1, of_decide_eq_true hp.2⟩

theorem findJob_mem (s : State) (jid : Nat) (j : Job) (h : s.findJob jid = some j) :
    j ∈ s.jobs ∧ j.id = jid := by
  unfold State.findJob at h
  exact ⟨List.mem_of_find?_eq_some h, by simpa using List.find?_some h⟩

theorem raw_eligible_elim (s : State) (i : IGLRaw) (h : IGLRaw.eligible s i = true) :
    ∃ jid, i.job = some jid ∧
      (∃ jr ∈ s.jobs, jr.id = jid ∧ jr.worker = none) ∧ s.tokenReady jid = true := by
  unfold IGLRaw.eligible at h
  split at h
  · cases h
  · rename_i jid hj
    refine ⟨jid, hj, ?_⟩
    split at h
    · cases h
    · rename_i jr hjr
      rw [Bool.and_eq_true] at h
      obtain ⟨hm, hid⟩ := findJob_mem s jid jr hjr
      exact ⟨⟨jr, hm, hid, by simpa using h.1⟩, h.2⟩

theorem enrich_eligible_elim (s : State) (i : IGLEnrich) (h : IGLEnrich.eligible s i = true) :
    ∃ jid, i.job = some jid ∧ ∃ jr ∈ s.jobs, jr.id = jid ∧ jr.worker = none := by
  unfold IGLEnrich.eligible at h
  split at h
  · cases h
  · rename_i jid hj
    refine ⟨jid, hj, ?_⟩
    split at h
    · cases h
    · rename_i jr hjr
      obtain ⟨hm, hid⟩ := findJob_mem s jid jr hjr
      exact ⟨jr, hm, hid, by simpa using h⟩

theorem setWorker_mem (s : State) (jid w : Nat) (j : Job)
    (hm : j ∈ s.jobs) (hid : j.id = jid) :
    ({ j with worker := some w } : Job) ∈ (s.setWorker jid w).jobs := by
  unfold State.setWorker
  have hj : ({ j with worker := some w } : Job) =
      (fun j : Job => if j.id == jid then { j with worker := some w } else j) j := by
    simp [hid]
  rw [hj]
  exact List.mem_map_of_mem _ hm

theorem raw_next_job_none (s : State) (w : Nat)
    (hfind : s.raws.find? (fun i => IGLRaw.eligible s i) = none) :
    IGLRaw.next_job s w = (none, s) := by
  unfold IGLRaw.next_job
  simp only [hfind]

theorem raw_next_job_some (s : State) (w : Nat) (i : IGLRaw) (jid : Nat)
    (hfind : s.raws.find? (fun i => IGLRaw.eligible s i) = some i) (hj : i.job = some jid) :
    IGLRaw.next_job s w = (some { id := jid, worker := some w }, s.setWorker jid w) := by
  unfold IGLRaw.next_job
  simp only [hfind, hj]

theorem enrich_next_job_none (s : State) (w : Nat)
    (hfind : s.enrichs.find? (fun i => IGLEnrich.eligible s i) = none) :
    IGLEnrich.next_job s w = (none, s) := by
  unfold IGLEnrich.next_job
  simp only [hfind]

theorem enrich_next_job_some (s : State) (w : Nat) (i : IGLEnrich) (jid : Nat)
    (hfind : s.enrichs.find? (fun i => IGLEnrich.eligible s i) = some i) (hj : i.job = some jid) :
    IGLEnrich.next_job s w = (some { id := jid, worker := some w }, s.setWorker jid w) := by
  unfold IGLEnrich.next_job
  simp only [hfind, hj]

/-! Claim C3. -/

/-- Claim C3 (confirmed): `next_job` returns a job only if some
intention has that job attached, the job has no worker yet, and — for
`IGLRaw` only — some token attached to the job is past its reset; when
it returns a job it assigns the calling worker to it and persists the
assignment, and otherwise it returns nothing (exactly when no intention
passes the filter) and leaves the state unchanged. `IGLEnrich.next_job`
applies the same selection without the token-readiness condition. -/
theorem C3_next_job_selection (s : State) (w : Nat) :
    (∀ j s2, IGLRaw.next_job s w = (some j, s2) →
      j.worker = some w ∧
      (∃ i ∈ s.raws, i.job = some j.id) ∧
      (∃ jr ∈ s.jobs, jr.id = j.id ∧ jr.worker = none) ∧
      (∃ t ∈ s.tokens, t.jobs.contains j.id = true ∧ t.reset < s.nowTime) ∧
      s2 = s.setWorker j.id w ∧
      (∃ jr ∈ s2.jobs, jr.id = j.id ∧ jr.worker = some w)) ∧
    ((IGLRaw.next_job s w).1 = none ↔ ∀ i ∈ s.raws, IGLRaw.eligible s i = false) ∧
    ((IGLRaw.next_job s w).1 = none → (IGLRaw.next_job s w).2 = s) ∧
    (∀ j s2, IGLEnrich.next_job s w = (some j, s2) →
      j.worker = some w ∧
      (∃ i ∈ s.enrichs, i.job = some j.id) ∧
      (∃ jr ∈ s.jobs, jr.id = j.id ∧ jr.worker = none) ∧
      s2 = s.setWorker j.id w ∧
      (∃ jr ∈ s2.jobs, jr.id = j.id ∧ jr.worker = some w)) ∧
    ((IGLEnrich.next_job s w).1 = none ↔ ∀ i ∈ s.enrichs, IGLEnrich.eligible s i = false) ∧
    ((IGLEnrich.next_job s w).1 = none → (IGLEnrich.next_job s w).2 = s) := by
  refine ⟨?_, ⟨?_, ?_⟩, ?_, ?_, ⟨?_, ?_⟩, ?_⟩
  · intro j s2 h
    cases hfind : s.raws.find? (fun i => IGLRaw.eligible s i) with
    | none =>
      rw [raw_next_job_none s w hfind] at h
      simp at h
    | some i =>
      have hel := List.find?_some hfind
      have hmem := List.mem_of_find?_eq_some hfind
      obtain ⟨jid, hj, ⟨jr, hjrm, hjrid, hjrw⟩, htr⟩ := raw_eligible_elim s i hel
      rw [raw_next_job_some s w i jid hfind hj] at h
      injection h with h1 h2
      obtain rfl := Option.some.inj h1
      refine ⟨rfl, ⟨i, hmem, hj⟩, ⟨jr, hjrm, hjrid, hjrw⟩,
        tokenReady_exists s jid htr, h2.symm, ?_⟩
      rw [← h2]
      exact ⟨{ jr with worker := some w }, setWorker_mem s jid w jr hjrm hjrid, hjrid, rfl⟩
  · intro h i hi
    cases hfind : s.raws.find? (fun i => IGLRaw.eligible s i) with
    | none => exact Bool.not_eq_true _ ▸ (List.find?_eq_none.mp hfind i hi)
    | some i0 =>
      have hel := List.find?_some hfind
      obtain ⟨jid, hj, _, _⟩ := raw_eligible_elim s i0 hel
      rw [raw_next_job_some s w i0 jid hfind hj] at h
      simp at h
  · intro h
    have hnone : s.raws.find? (fun i => IGLRaw.eligible s i) = none :=
      List.find?_eq_none.mpr (fun i hi => by rw [h i hi]; exact Bool.false_ne_true)
    rw [raw_next_job_none s w hnone]
  · intro h
    cases hfind : s.raws.find? (fun i => IGLRaw.eligible s i) with
    | none => rw [raw_next_job_none s w hfind]
    | some i =>
      have hel := List.find?_some hfind
      obtain ⟨jid, hj, _, _⟩ := raw_eligible_elim s i hel
      rw [raw_next_job_some s w i jid hfind hj] at h
      simp at h
  · intro j s2 h
    cases hfind : s.enrichs.find? (fun i => IGLEnrich.eligible s i) with
    | none =>
      rw [enrich_next_job_none s w hfind] at h
      simp at h
    | some i =>
      have hel := List.find?_some hfind
      have hmem := List.mem_of_find?_eq_some hfind
      obtain ⟨jid, hj, jr, hjrm, hjrid, hjrw⟩ := enrich_eligible_elim s i hel
      rw [enrich_next_job_some s w i jid hfind hj] at h
      injection h with h1 h2
      obtain rfl := Option.some.inj h1
      refine ⟨rfl, ⟨i, hmem, hj⟩, ⟨jr, hjrm, hjrid, hjrw⟩, h2.symm, ?_⟩
      rw [← h2]
      exact ⟨{ jr with worker := some w }, setWorker_mem s jid w jr hjrm hjrid, hjrid, rfl⟩
  · intro h i hi
    cases hfind : s.enrichs.find? (fun i => IGLEnrich.eligible s i) with
    | none => exact Bool.not_eq_true _ ▸ (List.find?_eq_none.mp hfind i hi)
    | some i0 =>
      have hel := List.find?_some hfind
      obtain ⟨jid, hj, _⟩ := enrich_eligible_elim s i0 hel
      rw [enrich_next_job_some s w i0 jid hfind hj] at h
      simp at h
  · intro h
    have hnone : s.enrichs.find? (fun i => IGLEnrich.eligible s i) = none :=
      List.find?_eq_none.mpr (fun i hi => by rw [h i hi]; exact Bool.false_ne_true)
    rw [enrich_next_job_none s w hnone]
  · intro h
    cases hfind : s.enrichs.find? (fun i => IGLEnrich.eligible s i) with
    | none => rw [enrich_next_job_none s w hfind]
    | some i =>
      have hel := List.find?_some hfind
      obtain ⟨jid, hj, _⟩ := enrich_eligible_elim s i hel
      rw [enrich_next_job_some s w i jid hfind hj] at h
      simp at h

/-- Claim C3 (witness): on the fixture state the raw `next_job` returns
job 1, and the theorem yields the ready token attached to it. -/
theorem C3_witness :
    ∃ t ∈ sC3.tokens, t.jobs.contains (1 : Nat) = true ∧ t.reset < sC3.nowTime := by
  have h := (C3_next_job_selection sC3 7).1 { id := 1, worker := some 7 }
      (IGLRaw.next_job sC3 7).2 (by decide)
  exact h.2.2.2.1

/-! Claim C4. -/

/-- Claim C4 (counterexample): the intention `pendC4` has a non-empty
`previous` set, yet `running_job` attaches job 4 to it, and `next_job`
then returns that job through it: neither operation inspects `previous`. -/
theorem C4_counterexample :
    pendC4.previous ≠ [] ∧
    (IGLRaw.running_job s0C4 pendC4).1 = some 4 ∧
    (∃ i ∈ s1C4.raws, i.id = pendC4.id ∧ i.previous ≠ [] ∧ i.job = some 4) ∧
    (IGLRaw.next_job s1C4 7).1 = some { id := 4, worker := some 7 } := by
  decide

/-- Claim C4 (amended): the `previous`-emptiness gate is enforced only
by the selectable-intentions queries: `selectable_intentions` (both
kinds) returns only intentions with an empty `previous` set, no job and
the given user. `next_job`, `running_job` and `create_job` do not
inspect `previous`, so an intention with unsatisfied prerequisites that
acquires a job through them can be returned by `next_job`. -/
theorem C4_selectable_excludes_pending (s : State) (user max : Nat) :
    (∀ i ∈ IRawManager.selectable_intentions s user max,
      i.previous = [] ∧ i.job = none ∧ i.user = user) ∧
    (∀ i ∈ IEnrichedManager.selectable_intentions s user max,
      i.previous = [] ∧ i.job = none ∧ i.user = user) := by
  constructor
  · intro i hi
    unfold IRawManager.selectable_intentions at hi
    dsimp only [] at hi
    split at hi
    · have hf := List.take_subset _ _ hi
      have hp := (List.mem_filter.mp hf).2
      simp only [Bool.and_eq_true, beq_iff_eq] at hp
      exact ⟨by simpa [List.isEmpty_iff] using hp.1.1, hp.2, hp.1.2⟩
    · simp at hi
  · intro i hi
    unfold IEnrichedManager.selectable_intentions at hi
    have hf := List.take_subset _ _ hi
    have hp := (List.mem_filter.mp hf).2
    simp only [Bool.and_eq_true, beq_iff_eq] at hp
    exact ⟨by simpa [List.isEmpty_iff] using hp.1.1, hp.2, hp.1.2⟩

/-- Claim C4 (witness): on the fixture state the selectable query does
return an intention, and the theorem certifies its `previous` is empty. -/
theorem C4_witness :
    ∃ i, i ∈ IRawManager.selectable_intentions sC4w 1 1 ∧ i.previous = [] := by
  refine ⟨{ id := 10, user := 1, repo := 5, job := none, previous := [] }, ?_, ?_⟩
  · decide
  · exact ((C4_selectable_excludes_pending sC4w 1 1).1 _ (by decide)).1

/-! Claim C5. -/

/-- Claim C5 (counterexample): `running_job` attaches ALL of the user's
credentials, not just the ready ones: in `sC5` the user's only token has
`reset = 1000 > now = 0` (not ready), yet after `running_job` it holds
the shared job 4. -/
theorem C5_counterexample :
    (∀ t ∈ sC5.tokens, ¬ (t.reset < sC5.nowTime)) ∧
    (∃ t ∈ (IGLRaw.running_job sC5 selfC5).2.tokens,
      t.jobs.contains (4 : Nat) = true ∧ sC5.nowTime ≤ t.reset) := by
  decide

theorem GLToken.addJob_contains (t : GLToken) (jid : Nat) :
    ((t.addJob jid).jobs.contains jid) = true := by
  unfold GLToken.addJob
  by_cases h : t.jobs.contains jid
  · rw [if_pos h]
    exact h
  · rw [if_neg h]
    simp

theorem raw_running_job_none (s : State) (self : IGLRaw)
    (h : (s.raws.filter (fun i => i.repo == self.repo && i.job.isSome)).head? = none) :
    IGLRaw.running_job s self = (none, s) := by
  unfold IGLRaw.running_job
  simp only [h]

theorem raw_running_job_some (s : State) (self : IGLRaw) (c : IGLRaw) (jid : Nat)
    (h : (s.raws.filter (fun i => i.repo == self.repo && i.job.isSome)).head? = some c)
    (hc : c.job = some jid) :
    IGLRaw.running_job s self =
      (some jid,
       { s with
         raws := s.raws.map (fun i => if i.id == self.id then { i with job := some jid } else i),
         tokens := s.tokens.map (fun t => if t.user == self.user then t.addJob jid else t) }) := by
  unfold IGLRaw.running_job
  simp only [h, hc]

theorem enrich_running_job_none (s : State) (self : IGLEnrich)
    (h : (s.enrichs.filter (fun i => i.repo == self.repo && i.job.isSome)).head? = none) :
    IGLEnrich.running_job s self = (none, s) := by
  unfold IGLEnrich.running_job
  simp only [h]

theorem enrich_running_job_some (s : State) (self : IGLEnrich) (c : IGLEnrich) (jid : Nat)
    (h : (s.enrichs.filter (fun i => i.repo == self.repo && i.job.isSome)).head? = some c)
    (hc : c.job = some jid) :
    IGLEnrich.running_job s self =
      (some jid,
       { s with
         enrichs := s.enrichs.map
           (fun i => if i.id == self.id then { i with job := some jid } else i) }) := by
  unfold IGLEnrich.running_job
  simp only [h, hc]

/-- Claim C5 (amended): `running_job` looks for the first intention on
the same repo that has a job; if none exists it returns nothing and the
state is unchanged; if one exists with job `jid`, the current intention
is assigned that job and saved, ALL of the current user's credentials —
regardless of readiness — are attached to the job (raw-collection only),
and the shared job is returned. The enrichment variant does the same
without touching credentials. -/
theorem C5_running_job_shares (s : State) :
    (∀ self : IGLRaw,
      ((s.raws.filter (fun i => i.repo == self.repo && i.job.isSome)).head? = none →
        IGLRaw.running_job s self = (none, s)) ∧
      (∀ c jid,
        (s.raws.filter (fun i => i.repo == self.repo && i.job.isSome)).head? = some c →
        c.job = some jid →
        c ∈ s.raws ∧ c.repo = self.repo ∧
        (IGLRaw.running_job s self).1 = some jid ∧
        (∀ i ∈ (IGLRaw.running_job s self).2.raws, i.id = self.id → i.job = some jid) ∧
        (∀ t ∈ (IGLRaw.running_job s self).2.tokens, t.user = self.user →
          t.jobs.contains jid = true))) ∧
    (∀ self : IGLEnrich,
      ((s.enrichs.filter (fun i => i.repo == self.repo && i.job.isSome)).head? = none →
        IGLEnrich.running_job s self = (none, s)) ∧
      (∀ c jid,
        (s.enrichs.filter (fun i => i.repo == self.repo && i.job.isSome)).head? = some c →
        c.job = some jid →
        c ∈ s.enrichs ∧ c.repo = self.repo ∧
        (IGLEnrich.running_job s self).1 = some jid ∧
        (∀ i ∈ (IGLEnrich.running_job s self).2.enrichs, i.id = self.id →
          i.job = some jid))) := by
  constructor
  · intro self
    refine ⟨raw_running_job_none s self, ?_⟩
    intro c jid h hc
    have hcf := mem_of_head?_eq_some h
    have hcm := (List.mem_filter.mp hcf).1
    have hcp := (List.mem_filter.mp hcf).2
    rw [Bool.and_eq_true] at hcp
    rw [raw_running_job_some s self c jid h hc]
    refine ⟨hcm, by simpa using hcp.1, rfl, ?_, ?_⟩
    · intro i hi hid
      obtain ⟨i0, hi0, hfeq⟩ := List.mem_map.mp hi
      by_cases hb : i0.id = self.id
      · rw [if_pos (by simpa using hb)] at hfeq
        rw [← hfeq]
      · rw [if_neg (by simpa using hb)] at hfeq
        rw [← hfeq] at hid
        exact absurd hid hb
    · intro t ht htu
      obtain ⟨t0, ht0, hfeq⟩ := List.mem_map.mp ht
      by_cases hb : t0.user = self.user
      · rw [if_pos (by simpa using hb)] at hfeq
        rw [← hfeq]
        exact GLToken.addJob_contains t0 jid
      · rw [if_neg (by simpa using hb)] at hfeq
        rw [← hfeq] at htu
        exact absurd htu hb
  · intro self
    refine ⟨enrich_running_job_none s self, ?_⟩
    intro c jid h hc
    have hcf := mem_of_head?_eq_some h
    have hcm := (List.mem_filter.mp hcf).1
    have hcp := (List.mem_filter.mp hcf).2
    rw [Bool.and_eq_true] at hcp
    rw [enrich_running_job_some s self c jid h hc]
    refine ⟨hcm, by simpa using hcp.1, rfl, ?_⟩
    intro i hi hid
    obtain ⟨i0, hi0, hfeq⟩ := List.mem_map.mp hi
    by_cases hb : i0.id = self.id
    · rw [if_pos (by simpa using hb)] at hfeq
      rw [← hfeq]
    · rw [if_neg (by simpa using hb)] at hfeq
      rw [← hfeq] at hid
      exact absurd hid hb

/-- Claim C5 (witness): on the fixture state the theorem yields the
shared job 4 for `selfC5`. -/
theorem C5_witness : (IGLRaw.running_job sC5 selfC5).1 = some 4 := by
  have h := ((C5_running_job_shares sC5).1 selfC5).2
      { id := 11, user := 3, repo := 5, job := some 4, previous := [] } 4 (by decide) rfl
  exact h.2.2.1

/-! Claim C1. -/

/-- Claim C1 (counterexample): in `sC1` every token is within the cap
(`MAX_JOBS_TOKEN = 3` jobs), but `running_job` attaches the shared job
to the user's token without any cap check, leaving it with 4 jobs. -/
theorem C1_counterexample :
    (∀ t ∈ sC1.tokens, t.jobs.length ≤ GLToken.MAX_JOBS_TOKEN) ∧
    (∃ t ∈ (IGLRaw.running_job sC1 selfC1).2.tokens,
      GLToken.MAX_JOBS_TOKEN < t.jobs.length) := by
  decide

theorem create_job_loop_cap (user newId : Nat) (ts : List GLToken)
    (selfJob : Option Nat) (created : Bool)
    (h : ∀ t ∈ ts, t.jobs.length ≤ GLToken.MAX_JOBS_TOKEN) :
    ∀ t ∈ (IGLRaw.create_job_loop user newId ts selfJob created).1,
      t.jobs.length ≤ GLToken.MAX_JOBS_TOKEN := by
  induction ts generalizing selfJob created with
  | nil =>
    intro t ht
    simp [IGLRaw.create_job_loop] at ht
  | cons t0 ts ih =>
    intro t ht
    have h0 := h t0 (List.mem_cons_self t0 ts)
    have hts : ∀ t ∈ ts, t.jobs.length ≤ GLToken.MAX_JOBS_TOKEN :=
      fun t htm => h t (List.mem_cons_of_mem t0 htm)
    unfold IGLRaw.create_job_loop at ht
    dsimp only [] at ht
    split at ht
    · rename_i hcond
      rw [Bool.and_eq_true] at hcond
      have hlt := of_decide_eq_true hcond.2
      split at ht
      · rcases List.mem_cons.mp ht with rfl | hrest
        · exact le_trans (GLToken.addJob_length t0 newId) hlt
        · exact ih (some newId) true hts t hrest
      · rename_i jid
        rcases List.mem_cons.mp ht with rfl | hrest
        · exact le_trans (GLToken.addJob_length t0 jid) hlt
        · exact ih (some jid) created hts t hrest
    · rcases List.mem_cons.mp ht with rfl | hrest
      · exact h0
      · exact ih selfJob created hts t hrest

/-- Claim C1 (amended): `create_job` preserves the cap — it attaches the
job to a token only after checking `token.jobs.count() < MAX_JOBS_TOKEN`,
so if every token is within the cap before `create_job`, every token is
within the cap after it. (`running_job`, by contrast, attaches the
user's tokens without a cap check and can exceed the cap, as the
counterexample shows.) -/
theorem C1_create_job_within_cap (s : State) (self : IGLRaw) (worker : Nat)
    (h : s.tokensWithinCap) :
    ((IGLRaw.create_job s self worker).2).tokensWithinCap := by
  unfold State.tokensWithinCap at h ⊢
  intro t ht
  unfold IGLRaw.create_job at ht
  dsimp only [] at ht
  exact create_job_loop_cap self.user s.nextId s.tokens self.job false h t ht

/-- Claim C1 (witness): cap preservation applied to `sC1`. -/
theorem C1_witness : ((IGLRaw.create_job sC1 selfC1 7).2).tokensWithinCap :=
  C1_create_job_within_cap sC1 selfC1 7 (by unfold State.tokensWithinCap; decide)

/-! Claim C6. -/

/-- Claim C6 (counterexample): `create_job` creates the job already
claimed: `Job.objects.create(worker=worker)` stores the calling worker
at creation, so the returned job has `worker = some 7`, not no worker. -/
theorem C6_counterexample :
    (IGLRaw.create_job sC6 selfC6 7).1 = some { id := 100, worker := some 7 } ∧
    some 7 ≠ (none : Option Nat) := by
  decide

theorem noNewUnclaimed_refl (s : State) : s.noNewUnclaimed s := by
  intro j2 h2 hw
  exact ⟨j2, h2, rfl, hw⟩

theorem setWorker_noNewUnclaimed (s : State) (jid w : Nat) :
    s.noNewUnclaimed (s.setWorker jid w) := by
  intro j2 h2 hw
  obtain ⟨j0, h0, hfeq⟩ := List.mem_map.mp h2
  by_cases hb : j0.id = jid
  · rw [if_pos (by simpa using hb)] at hfeq
    rw [← hfeq] at hw
    cases hw
  · rw [if_neg (by simpa using hb)] at hfeq
    exact ⟨j0, h0, by rw [hfeq], by rw [hfeq]; exact hw⟩

/-- Claim C6 (amended): jobs created by `create_job` (both kinds) carry
the creating worker from birth — the returned job has `worker = some w`,
never no worker; `next_job` assigns a worker only to jobs that had none;
and no operation moves a job from claimed back to unclaimed: after
`next_job`, `create_job` or `running_job`, any job without a worker
already existed without a worker before the call. -/
theorem C6_worker_assignment :
    (∀ s self w j, (IGLRaw.create_job s self w).1 = some j → j.worker = some w) ∧
    (∀ s self w j, (IGLEnrich.create_job s self w).1 = some j → j.worker = some w) ∧
    (∀ (s : State) (w : Nat), s.noNewUnclaimed (IGLRaw.next_job s w).2) ∧
    (∀ (s : State) (w : Nat), s.noNewUnclaimed (IGLEnrich.next_job s w).2) ∧
    (∀ (s : State) (self : IGLRaw) (w : Nat),
      s.noNewUnclaimed (IGLRaw.create_job s self w).2) ∧
    (∀ (s : State) (self : IGLEnrich) (w : Nat),
      s.noNewUnclaimed (IGLEnrich.create_job s self w).2) ∧
    (∀ (s : State) (self : IGLRaw), s.noNewUnclaimed (IGLRaw.running_job s self).2) ∧
    (∀ (s : State) (self : IGLEnrich), s.noNewUnclaimed (IGLEnrich.running_job s self).2) := by
  refine ⟨?_, ?_, ?_, ?_, ?_, ?_, ?_, ?_⟩
  · intro s self w j hj
    unfold IGLRaw.create_job at hj
    dsimp only [] at hj
    split at hj
    · obtain rfl := Option.some.inj hj
      rfl
    · cases hj
  · intro s self w j hj
    unfold IGLEnrich.create_job at hj
    split at hj
    · cases hj
    · obtain rfl := Option.some.inj hj
      rfl
  · intro s w
    cases hfind : s.raws.find? (fun i => IGLRaw.eligible s i) with
    | none =>
      rw [raw_next_job_none s w hfind]
      exact noNewUnclaimed_refl s
    | some i =>
      obtain ⟨jid, hj, _, _⟩ := raw_eligible_elim s i (List.find?_some hfind)
      rw [raw_next_job_some s w i jid hfind hj]
      exact setWorker_noNewUnclaimed s jid w
  · intro s w
    cases hfind : s.enrichs.find? (fun i => IGLEnrich.eligible s i) with
    | none =>
      rw [enrich_next_job_none s w hfind]
      exact noNewUnclaimed_refl s
    | some i =>
      obtain ⟨jid, hj, _⟩ := enrich_eligible_elim s i (List.find?_some hfind)
      rw [enrich_next_job_some s w i jid hfind hj]
      exact setWorker_noNewUnclaimed s jid w
  · intro s self w
    intro j2 h2 hw
    unfold IGLRaw.create_job at h2
    dsimp only [] at h2
    split at h2
    · rcases List.mem_append.mp h2 with hmem | hnew
      · exact ⟨j2, hmem, rfl, hw⟩
      · rw [List.mem_singleton.mp hnew] at hw
        cases hw
    · exact ⟨j2, h2, rfl, hw⟩
  · intro s self w
    intro j2 h2 hw
    unfold IGLEnrich.create_job at h2
    split at h2
    · exact ⟨j2, h2, rfl, hw⟩
    · dsimp only [] at h2
      rcases List.mem_append.mp h2 with hmem | hnew
      · exact ⟨j2, hmem, rfl, hw⟩
      · rw [List.mem_singleton.mp hnew] at hw
        cases hw
  · intro s self
    cases hh : (s.raws.filter (fun i => i.repo == self.repo && i.job.isSome)).head? with
    | none =>
      rw [raw_running_job_none s self hh]
      exact noNewUnclaimed_refl s
    | some c =>
      cases hc : c.job with
      | none =>
        have : IGLRaw.running_job s self = (none, s) := by
          unfold IGLRaw.running_job
          simp only [hh, hc]
        rw [this]
        exact noNewUnclaimed_refl s
      | some jid =>
        rw [raw_running_job_some s self c jid hh hc]
        intro j2 h2 hw
        exact ⟨j2, h2, rfl, hw⟩
  · intro s self
    cases hh : (s.enrichs.filter (fun i => i.repo == self.repo && i.job.isSome)).head? with
    | none =>
      rw [enrich_running_job_none s self hh]
      exact noNewUnclaimed_refl s
    | some c =>
      cases hc : c.job with
      | none =>
        have : IGLEnrich.running_job s self = (none, s) := by
          unfold IGLEnrich.running_job
          simp only [hh, hc]
        rw [this]
        exact noNewUnclaimed_refl s
      | some jid =>
        rw [enrich_running_job_some s self c jid hh hc]
        intro j2 h2 hw
        exact ⟨j2, h2, rfl, hw⟩

/-- Claim C6 (witness): on `sC6w`, `next_job` claims job 1 and the
theorem certifies that the still-unclaimed job 2 was already unclaimed
before the call. -/
theorem C6_witness :
    ∃ j1 ∈ sC6w.jobs, j1.id = ({ id := 2, worker := none } : Job).id ∧ j1.worker = none := by
  have h := C6_worker_assignment.2.2.1 sC6w 9
  exact h { id := 2, worker := none } (by decide) rfl
/-! Claim C8. -/

theorem addPrevious_of_contains (e : IGLEnrich) (rid : Nat)
    (h : e.previous.contains rid = true) : e.addPrevious rid = e := by
  unfold IGLEnrich.addPrevious
  rw [if_pos h]

theorem addPrevious_contains (e : IGLEnrich) (rid : Nat) :
    ((e.addPrevious rid).previous.contains rid) = true := by
  unfold IGLEnrich.addPrevious
  by_cases h : e.previous.contains rid
  · rw [if_pos h]
    exact h
  · rw [if_neg h]
    simp

theorem addPrevious_idem (e : IGLEnrich) (rid : Nat) :
    (e.addPrevious rid).addPrevious rid = e.addPrevious rid :=
  addPrevious_of_contains _ _ (addPrevious_contains e rid)

theorem addPrevious_id (e : IGLEnrich) (rid : Nat) : (e.addPrevious rid).id = e.id := by
  unfold IGLEnrich.addPrevious
  split <;> rfl

theorem addPrevious_repo (e : IGLEnrich) (rid : Nat) : (e.addPrevious rid).repo = e.repo := by
  unfold IGLEnrich.addPrevious
  split <;> rfl

theorem addPrevious_user (e : IGLEnrich) (rid : Nat) : (e.addPrevious rid).user = e.user := by
  unfold IGLEnrich.addPrevious
  split <;> rfl

theorem create_previous_found (s : State) (self : IGLEnrich) (i : IGLRaw)
    (hfind : s.raws.find? (fun i => i.repo == self.repo && i.user == self.user) = some i) :
    IGLEnrich.create_previous s self =
      ([i.id], { s with enrichs := s.enrichs.map (fun e =>
          if e.id == self.id then e.addPrevious i.id else e) }) := by
  unfold IGLEnrich.create_previous
  simp only [hfind]

theorem create_previous_missing (s : State) (self : IGLEnrich)
    (hfind : s.raws.find? (fun i => i.repo == self.repo && i.user == self.user) = none) :
    IGLEnrich.create_previous s self =
      ([s.nextId],
       { s with
         raws := s.raws ++ [{ id := s.nextId, user := self.user, repo := self.repo,
                              job := none, previous := [] }],
         enrichs := s.enrichs.map (fun e =>
           if e.id == self.id then e.addPrevious s.nextId else e),
         nextId := s.nextId + 1 }) := by
  unfold IGLEnrich.create_previous
  simp only [hfind]

theorem enrich_map_add_idem (l : List IGLEnrich) (selfId rid : Nat) :
    (l.map (fun e => if e.id == selfId then e.addPrevious rid else e)).map
      (fun e => if e.id == selfId then e.addPrevious rid else e) =
    l.map (fun e => if e.id == selfId then e.addPrevious rid else e) := by
  rw [List.map_map]
  apply List.map_congr_left
  intro e _
  by_cases hb : e.id = selfId
  · simp only [Function.comp]
    simp [hb, addPrevious_id, addPrevious_idem]
  · simp only [Function.comp]
    simp [hb]

/-- Claim C8 (confirmed): `create_previous` is idempotent. For a
raw-collection intention it always returns the empty list and leaves
the state unchanged. For an enrichment intention, the raw prerequisite
is obtained by get-or-create keyed on (repo, user) and added to the
`previous` set; a second call (on the intention with its updated
`previous` set) finds the same prerequisite, creates no new row, changes
nothing, and returns the same singleton list. -/
theorem C8_create_previous_idempotent :
    (∀ (s : State) (self : IGLRaw), IGLRaw.create_previous s self = ([], s)) ∧
    (∀ (s : State) (self : IGLEnrich) (l1 : List Nat) (s1 : State) (rid : Nat),
      IGLEnrich.create_previous s self = (l1, s1) → l1 = [rid] →
      IGLEnrich.create_previous s1 (self.addPrevious rid) = ([rid], s1)) := by
  constructor
  · intro s self
    rfl
  · intro s self l1 s1 rid h1 hl
    subst hl
    have hpred : (fun i : IGLRaw =>
        i.repo == (self.addPrevious rid).repo && i.user == (self.addPrevious rid).user) =
        (fun i : IGLRaw => i.repo == self.repo && i.user == self.user) := by
      funext i
      rw [addPrevious_repo, addPrevious_user]
    cases hfind : s.raws.find? (fun i => i.repo == self.repo && i.user == self.user) with
    | some i =>
      rw [create_previous_found s self i hfind] at h1
      injection h1 with h1l h1s
      have hrid : i.id = rid := (List.cons.inj h1l).1
      subst hrid
      have hfind2 : s1.raws.find? (fun i0 : IGLRaw =>
          i0.repo == (self.addPrevious i.id).repo &&
          i0.user == (self.addPrevious i.id).user) = some i := by
        rw [hpred, ← h1s]
        exact hfind
      rw [create_previous_found s1 (self.addPrevious i.id) i hfind2]
      have hmap : s1.enrichs.map (fun e =>
          if e.id == (self.addPrevious i.id).id then e.addPrevious i.id else e) =
          s1.enrichs := by
        rw [show (self.addPrevious i.id).id = self.id from addPrevious_id self i.id, ← h1s]
        exact enrich_map_add_idem s.enrichs self.id i.id
      rw [hmap]
    | none =>
      rw [create_previous_missing s self hfind] at h1
      injection h1 with h1l h1s
      have hrid : s.nextId = rid := (List.cons.inj h1l).1
      subst hrid
      have hfind2 : s1.raws.find? (fun i0 : IGLRaw =>
          i0.repo == (self.addPrevious s.nextId).repo &&
          i0.user == (self.addPrevious s.nextId).user) =
          some { id := s.nextId, user := self.user, repo := self.repo,
                 job := none, previous := [] } := by
        rw [hpred, ← h1s]
        rw [show ({ s with
          raws := s.raws ++ [{ id := s.nextId, user := self.user, repo := self.repo,
                               job := none, previous := [] }],
          enrichs := s.enrichs.map (fun e =>
            if e.id == self.id then e.addPrevious s.nextId else e),
          nextId := s.nextId + 1 } : State).raws =
          s.raws ++ [{ id := s.nextId, user := self.user, repo := self.repo,
                       job := none, previous := [] }] from rfl]
        rw [List.find?_append, hfind]
        simp [List.find?]
      rw [create_previous_found s1 (self.addPrevious s.nextId) _ hfind2]
      have hmap : s1.enrichs.map (fun e =>
          if e.id == (self.addPrevious s.nextId).id then e.addPrevious s.nextId else e) =
          s1.enrichs := by
        rw [show (self.addPrevious s.nextId).id = self.id from addPrevious_id self s.nextId,
          ← h1s]
        exact enrich_map_add_idem s.enrichs self.id s.nextId
      rw [hmap]

/-- Claim C8 (witness): on the fixture state the second `create_previous`
call returns the same prerequisite 50 and leaves the state exactly at
`sC8after`. -/
theorem C8_witness :
    IGLEnrich.create_previous sC8after (selfC8.addPrevious 50) = ([50], sC8after) :=
  C8_create_previous_idempotent.2 sC8 selfC8 [50] sC8after 50 (by decide) rfl

/-! Claim C10. -/

theorem claimedOrAbsent_intro_none (s : State) (k : Nat) (hf : s.findJob k = none) :
    s.claimedOrAbsent k = true := by
  unfold State.claimedOrAbsent
  simp only [hf]

theorem claimedOrAbsent_intro_some (s : State) (k : Nat) (j : Job)
    (hf : s.findJob k = some j) (hw : j.worker.isSome = true) :
    s.claimedOrAbsent k = true := by
  unfold State.claimedOrAbsent
  simp only [hf]
  exact hw

theorem claimedOrAbsent_elim (s : State) (k : Nat) (j : Job)
    (hf : s.findJob k = some j) (h : s.claimedOrAbsent k = true) :
    j.worker.isSome = true := by
  unfold State.claimedOrAbsent at h
  simp only [hf] at h
  exact h

theorem claimedOrAbsent_setWorker_self (s : State) (jid w : Nat) :
    (s.setWorker jid w).claimedOrAbsent jid = true := by
  cases hf : s.findJob jid with
  | none =>
    apply claimedOrAbsent_intro_none
    rw [findJob_setWorker, hf]
    rfl
  | some j =>
    have hid : j.id = jid := (findJob_mem s jid j hf).2
    apply claimedOrAbsent_intro_some _ _ ({ j with worker := some w })
    · rw [findJob_setWorker, hf]
      simp [hid]
    · rfl

theorem setWorker_claimedOrAbsent_mono (s : State) (jid w k : Nat)
    (h : s.claimedOrAbsent k = true) : (s.setWorker jid w).claimedOrAbsent k = true := by
  cases hf : s.findJob k with
  | none =>
    apply claimedOrAbsent_intro_none
    rw [findJob_setWorker, hf]
    rfl
  | some j =>
    have hw := claimedOrAbsent_elim s k j hf h
    by_cases hb : j.id = jid
    · apply claimedOrAbsent_intro_some _ _ ({ j with worker := some w })
      · rw [findJob_setWorker, hf]
        simp [hb]
      · rfl
    · apply claimedOrAbsent_intro_some _ _ j
      · rw [findJob_setWorker, hf]
        simp [hb]
      · exact hw

theorem raw_eligible_findJob (s : State) (i : IGLRaw) (jid : Nat)
    (hj : i.job = some jid) (h : IGLRaw.eligible s i = true) :
    ∃ jr, s.findJob jid = some jr ∧ jr.worker = none := by
  unfold IGLRaw.eligible at h
  simp only [hj] at h
  split at h
  · cases h
  · rename_i jr hjr
    rw [Bool.and_eq_true] at h
    exact ⟨jr, hjr, by simpa using h.1⟩

theorem enrich_eligible_findJob (s : State) (i : IGLEnrich) (jid : Nat)
    (hj : i.job = some jid) (h : IGLEnrich.eligible s i = true) :
    ∃ jr, s.findJob jid = some jr ∧ jr.worker = none := by
  unfold IGLEnrich.eligible at h
  simp only [hj] at h
  split at h
  · cases h
  · rename_i jr hjr
    exact ⟨jr, hjr, by simpa using h⟩

theorem raw_next_job_not_claim (s : State) (w k : Nat) (j : Job)
    (h : s.claimedOrAbsent k = true) (hr : (IGLRaw.next_job s w).1 = some j) :
    (j.id == k) = false := by
  cases hfind : s.raws.find? (fun i => IGLRaw.eligible s i) with
  | none =>
    rw [raw_next_job_none s w hfind] at hr
    cases hr
  | some i =>
    have hel := List.find?_some hfind
    obtain ⟨jid, hj, _, _⟩ := raw_eligible_elim s i hel
    rw [raw_next_job_some s w i jid hfind hj] at hr
    obtain rfl := Option.some.inj hr
    obtain ⟨jr, hjr, hjrw⟩ := raw_eligible_findJob s i jid hj hel
    by_cases hb : jid = k
    · subst hb
      have hws := claimedOrAbsent_elim s jid jr hjr h
      rw [hjrw] at hws
      cases hws
    · simpa using hb

theorem enrich_next_job_not_claim (s : State) (w k : Nat) (j : Job)
    (h : s.claimedOrAbsent k = true) (hr : (IGLEnrich.next_job s w).1 = some j) :
    (j.id == k) = false := by
  cases hfind : s.enrichs.find? (fun i => IGLEnrich.eligible s i) with
  | none =>
    rw [enrich_next_job_none s w hfind] at hr
    cases hr
  | some i =>
    have hel := List.find?_some hfind
    obtain ⟨jid, hj, _⟩ := enrich_eligible_elim s i hel
    rw [enrich_next_job_some s w i jid hfind hj] at hr
    obtain rfl := Option.some.inj hr
    obtain ⟨jr, hjr, hjrw⟩ := enrich_eligible_findJob s i jid hj hel
    by_cases hb : jid = k
    · subst hb
      have hws := claimedOrAbsent_elim s jid jr hjr h
      rw [hjrw] at hws
      cases hws
    · simpa using hb

theorem raw_next_job_preserves_claimed (s : State) (w k : Nat)
    (h : s.claimedOrAbsent k = true) :
    ((IGLRaw.next_job s w).2).claimedOrAbsent k = true := by
  cases hfind : s.raws.find? (fun i => IGLRaw.eligible s i) with
  | none =>
    rw [raw_next_job_none s w hfind]
    exact h
  | some i =>
    obtain ⟨jid, hj, _, _⟩ := raw_eligible_elim s i (List.find?_some hfind)
    rw [raw_next_job_some s w i jid hfind hj]
    exact setWorker_claimedOrAbsent_mono s jid w k h

theorem enrich_next_job_preserves_claimed (s : State) (w k : Nat)
    (h : s.claimedOrAbsent k = true) :
    ((IGLEnrich.next_job s w).2).claimedOrAbsent k = true := by
  cases hfind : s.enrichs.find? (fun i => IGLEnrich.eligible s i) with
  | none =>
    rw [enrich_next_job_none s w hfind]
    exact h
  | some i =>
    obtain ⟨jid, hj, _⟩ := enrich_eligible_elim s i (List.find?_some hfind)
    rw [enrich_next_job_some s w i jid hfind hj]
    exact setWorker_claimedOrAbsent_mono s jid w k h

theorem claimCount_cons (k : Nat) (r : Option Job) (rs : List (Option Job)) :
    claimCount k (r :: rs) =
      (if (match r with | some j => j.id == k | none => false) = true
       then claimCount k rs + 1 else claimCount k rs) := by
  unfold claimCount
  rw [List.filter_cons]
  split
  · simp
  · rfl

theorem raw_next_job_seq_cons (s : State) (w : Nat) (ws : List Nat) :
    IGLRaw.next_job_seq s (w :: ws) =
      ((IGLRaw.next_job s w).1 :: (IGLRaw.next_job_seq (IGLRaw.next_job s w).2 ws).1,
       (IGLRaw.next_job_seq (IGLRaw.next_job s w).2 ws).2) := by
  simp only [IGLRaw.next_job_seq]

theorem enrich_next_job_seq_cons (s : State) (w : Nat) (ws : List Nat) :
    IGLEnrich.next_job_seq s (w :: ws) =
      ((IGLEnrich.next_job s w).1 :: (IGLEnrich.next_job_seq (IGLEnrich.next_job s w).2 ws).1,
       (IGLEnrich.next_job_seq (IGLEnrich.next_job s w).2 ws).2) := by
  simp only [IGLEnrich.next_job_seq]

theorem raw_next_job_seq_no_claim (ws : List Nat) (s : State) (k : Nat)
    (h : s.claimedOrAbsent k = true) :
    claimCount k (IGLRaw.next_job_seq s ws).1 = 0 := by
  induction ws generalizing s with
  | nil => rfl
  | cons w ws ih =>
    rw [raw_next_job_seq_cons]
    rw [claimCount_cons]
    have hcond : (match (IGLRaw.next_job s w).1 with
        | some j => j.id == k | none => false) = false := by
      cases hr : (IGLRaw.next_job s w).1 with
      | none => rfl
      | some j => exact raw_next_job_not_claim s w k j h hr
    rw [hcond]
    simp only [Bool.false_eq_true, if_false]
    exact ih (IGLRaw.next_job s w).2 (raw_next_job_preserves_claimed s w k h)

theorem enrich_next_job_seq_no_claim (ws : List Nat) (s : State) (k : Nat)
    (h : s.claimedOrAbsent k = true) :
    claimCount k (IGLEnrich.next_job_seq s ws).1 = 0 := by
  induction ws generalizing s with
  | nil => rfl
  | cons w ws ih =>
    rw [enrich_next_job_seq_cons]
    rw [claimCount_cons]
    have hcond : (match (IGLEnrich.next_job s w).1 with
        | some j => j.id == k | none => false) = false := by
      cases hr : (IGLEnrich.next_job s w).1 with
      | none => rfl
      | some j => exact enrich_next_job_not_claim s w k j h hr
    rw [hcond]
    simp only [Bool.false_eq_true, if_false]
    exact ih (IGLEnrich.next_job s w).2 (enrich_next_job_preserves_claimed s w k h)

/-- Claim C10 (confirmed, in the serialized model of the row-locked
atomic transactions): when the first intention passing the `next_job`
filter holds the queued job `jid`, any serial execution of one or more
`next_job` calls claims `jid` exactly once — the first caller gets it
(with its worker set) and no later call in the sequence returns it
again, for both the raw and the enrichment variant. -/
theorem C10_exactly_one_claim :
    (∀ (s : State) (i : IGLRaw) (jid w : Nat) (ws : List Nat),
      s.raws.find? (fun i => IGLRaw.eligible s i) = some i → i.job = some jid →
      claimCount jid (IGLRaw.next_job_seq s (w :: ws)).1 = 1) ∧
    (∀ (s : State) (i : IGLEnrich) (jid w : Nat) (ws : List Nat),
      s.enrichs.find? (fun i => IGLEnrich.eligible s i) = some i → i.job = some jid →
      claimCount jid (IGLEnrich.next_job_seq s (w :: ws)).1 = 1) := by
  constructor
  · intro s i jid w ws hfind hj
    rw [raw_next_job_seq_cons, claimCount_cons]
    have hcomp := raw_next_job_some s w i jid hfind hj
    have hr1 : (IGLRaw.next_job s w).1 = some { id := jid, worker := some w } := by
      rw [hcomp]
    have hs1 : (IGLRaw.next_job s w).2 = s.setWorker jid w := by
      rw [hcomp]
    rw [hr1, hs1]
    simp only [beq_self_eq_true, if_pos]
    rw [raw_next_job_seq_no_claim ws (s.setWorker jid w) jid
      (claimedOrAbsent_setWorker_self s jid w)]
  · intro s i jid w ws hfind hj
    rw [enrich_next_job_seq_cons, claimCount_cons]
    have hcomp := enrich_next_job_some s w i jid hfind hj
    have hr1 : (IGLEnrich.next_job s w).1 = some { id := jid, worker := some w } := by
      rw [hcomp]
    have hs1 : (IGLEnrich.next_job s w).2 = s.setWorker jid w := by
      rw [hcomp]
    rw [hr1, hs1]
    simp only [beq_self_eq_true, if_pos]
    rw [enrich_next_job_seq_no_claim ws (s.setWorker jid w) jid
      (claimedOrAbsent_setWorker_self s jid w)]

/-- Claim C10 (witness): three workers race on the single queued job of
`sC10`; exactly one of the three serialized calls claims it. -/
theorem C10_witness :
    claimCount 1 (IGLRaw.next_job_seq sC10 [7, 8, 9]).1 = 1 :=
  C10_exactly_one_claim.1 sC10 iC10 1 7 [8, 9] (by decide) rfl
